import Mathlib

/-!
Verification of the machine model of `ultimate_scale` (`src/machine/mod.rs`).

The block catalog, placed-block rotation logic, and the `Machine` CRUD surface
are translated directly from `src/machine/mod.rs`.  The helper modules
`machine/grid.rs` (`Axis3`, `Sign`, `Dir3`, `Point3`, `Grid3`),
`machine/level.rs` (`Level`) and `util/vec_option.rs` (`VecOption`) are not
part of the available sources; those are modelled from the specification's
descriptions (marked `Modelled from the spec:` below).

Machine-integer notes: Rust `usize` values that only ever grow from 0 are
modelled as `Nat`; `isize` coordinates as `Int` with `Int.tdiv` mirroring
Rust's truncating `/`.
-/

namespace UltimateScale

/-- Modelled from the spec: a direction is one of 6 axis-aligned unit vectors,
each tagged with its axis (X/Y/Z) and sign (`machine/grid.rs` is not in the
sources). -/
inductive Axis3 where
  | X
  | Y
  | Z
deriving DecidableEq, Repr

/-- Modelled from the spec: the sign component of an axis direction. -/
inductive Sign where
  | Neg
  | Pos
deriving DecidableEq, Repr

/-- Modelled from the spec: an axis-aligned direction, axis plus sign. -/
structure Dir3 where
  axis : Axis3
  sign : Sign
deriving DecidableEq, Repr

instance : Fintype Axis3 :=
  ⟨⟨{Axis3.X, Axis3.Y, Axis3.Z}, by decide⟩, by intro x; cases x <;> decide⟩

instance : Fintype Sign :=
  ⟨⟨{Sign.Neg, Sign.Pos}, by decide⟩, by intro x; cases x <;> decide⟩

instance : Fintype Dir3 :=
  ⟨⟨(↑[(⟨Axis3.X, Sign.Neg⟩ : Dir3), ⟨Axis3.X, Sign.Pos⟩, ⟨Axis3.Y, Sign.Neg⟩,
      ⟨Axis3.Y, Sign.Pos⟩, ⟨Axis3.Z, Sign.Neg⟩, ⟨Axis3.Z, Sign.Pos⟩] : Multiset Dir3),
    by decide⟩,
   by intro d; rcases d with ⟨a, s⟩; rcases a <;> rcases s <;> decide⟩

def Dir3.X_NEG : Dir3 := ⟨Axis3.X, Sign.Neg⟩
def Dir3.X_POS : Dir3 := ⟨Axis3.X, Sign.Pos⟩
def Dir3.Y_NEG : Dir3 := ⟨Axis3.Y, Sign.Neg⟩
def Dir3.Y_POS : Dir3 := ⟨Axis3.Y, Sign.Pos⟩
def Dir3.Z_NEG : Dir3 := ⟨Axis3.Z, Sign.Neg⟩
def Dir3.Z_POS : Dir3 := ⟨Axis3.Z, Sign.Pos⟩

/-- Modelled from the spec: quarter-turn clockwise rotation in the X-Y plane;
Z directions are never rotated. -/
def Dir3.rotated_cw_xy : Dir3 → Dir3
  | ⟨Axis3.X, Sign.Pos⟩ => ⟨Axis3.Y, Sign.Pos⟩
  | ⟨Axis3.Y, Sign.Pos⟩ => ⟨Axis3.X, Sign.Neg⟩
  | ⟨Axis3.X, Sign.Neg⟩ => ⟨Axis3.Y, Sign.Neg⟩
  | ⟨Axis3.Y, Sign.Neg⟩ => ⟨Axis3.X, Sign.Pos⟩
  | ⟨Axis3.Z, s⟩ => ⟨Axis3.Z, s⟩

/-- Modelled from the spec: quarter-turn counter-clockwise rotation in the
X-Y plane, the inverse of `Dir3.rotated_cw_xy`. -/
def Dir3.rotated_ccw_xy : Dir3 → Dir3
  | ⟨Axis3.Y, Sign.Pos⟩ => ⟨Axis3.X, Sign.Pos⟩
  | ⟨Axis3.X, Sign.Neg⟩ => ⟨Axis3.Y, Sign.Pos⟩
  | ⟨Axis3.Y, Sign.Neg⟩ => ⟨Axis3.X, Sign.Neg⟩
  | ⟨Axis3.X, Sign.Pos⟩ => ⟨Axis3.Y, Sign.Neg⟩
  | ⟨Axis3.Z, s⟩ => ⟨Axis3.Z, s⟩

/-- `BlipKind` from `src/machine/mod.rs`. -/
inductive BlipKind where
  | A
  | B
  | C
deriving DecidableEq, Repr

/-- `BlipKind::next` from `src/machine/mod.rs`. -/
def BlipKind.next : BlipKind → BlipKind
  | BlipKind.A => BlipKind.B
  | BlipKind.B => BlipKind.C
  | BlipKind.C => BlipKind.A

/-- Modelled from the spec: `level::Input`, a per-input expected token value
(a kinded token; `machine/level.rs` is not in the sources). The claims never
inspect this payload, only carry it. -/
inductive LevelInput where
  | blip (kind : BlipKind)
deriving DecidableEq, Repr

/-- `Block` from `src/machine/mod.rs`: the closed catalog of block variants.
Variants are unrotated; rotation lives in `PlacedBlock`. -/
inductive Block where
  | Pipe (dir_a dir_b : Dir3)
  | PipeSplitXY (open_move_hole_y : Sign)
  | PipeMergeXY
  | FunnelXY
  | WindSource
  | BlipSpawn (kind : BlipKind) (num_spawns : Option Nat) (activated : Option Nat)
  | BlipDuplicator (kind : Option BlipKind) (activated : Option BlipKind)
  | BlipWindSource (activated : Bool)
  | Solid
  | Input (index : Nat) (inputs : List (Option LevelInput)) (activated : Option LevelInput)
  | Output (index : Nat) (expected_next_kind : Option BlipKind)
deriving DecidableEq, Repr

/-- `Block::has_wind_hole` from `src/machine/mod.rs`. -/
def Block.has_wind_hole (b : Block) (dir : Dir3) : Bool :=
  match b with
  | Block.Pipe dir_a dir_b => dir == dir_a || dir == dir_b
  | Block.PipeSplitXY _ => dir == Dir3.Y_NEG || dir == Dir3.Y_POS || dir == Dir3.X_POS
  | Block.PipeMergeXY => dir != Dir3.Z_NEG && dir != Dir3.Z_POS
  | Block.FunnelXY => dir == Dir3.Y_NEG || dir == Dir3.Y_POS
  | Block.WindSource => true
  | Block.BlipSpawn _ _ _ => true
  | Block.BlipDuplicator _ _ => true
  | Block.Solid => true
  | Block.BlipWindSource _ => true
  | Block.Input _ _ _ => dir == Dir3.X_POS
  | Block.Output _ _ => dir != Dir3.Z_NEG

/-- `Block::has_wind_hole_in` from `src/machine/mod.rs`. -/
def Block.has_wind_hole_in (b : Block) (dir : Dir3) : Bool :=
  match b with
  | Block.FunnelXY => dir == Dir3.Y_NEG
  | Block.WindSource => false
  | b => b.has_wind_hole dir

/-- `Block::has_wind_hole_out` from `src/machine/mod.rs`. -/
def Block.has_wind_hole_out (b : Block) (dir : Dir3) : Bool :=
  match b with
  | Block.FunnelXY => dir == Dir3.Y_POS
  | Block.BlipDuplicator _ _ => false
  | Block.BlipWindSource _ => dir != Dir3.Y_NEG
  | Block.Output _ _ => false
  | b => b.has_wind_hole dir

/-- `Block::has_move_hole` from `src/machine/mod.rs`.  Note the
`BlipDuplicator` arm translates Rust's `dir != X_NEG || dir != X_POS`
verbatim. -/
def Block.has_move_hole (b : Block) (dir : Dir3) : Bool :=
  match b with
  | Block.PipeSplitXY open_move_hole_y =>
      dir == ⟨Axis3.Y, open_move_hole_y⟩ || dir == Dir3.X_POS
  | Block.BlipDuplicator _ _ => dir != Dir3.X_NEG || dir != Dir3.X_POS
  | Block.BlipWindSource _ => dir == Dir3.Y_NEG
  | b => b.has_wind_hole dir

/-- `PlacedBlock` from `src/machine/mod.rs`: a block variant plus a
quarter-turn rotation count about the vertical axis (`usize` in Rust). -/
structure PlacedBlock where
  rotation_xy : Nat
  block : Block
deriving DecidableEq, Repr

/-- `PlacedBlock::rotate_cw_xy` from `src/machine/mod.rs` (mutation modelled
as a function): increment, wrapping `4` back to `0`. -/
def PlacedBlock.rotate_cw_xy (pb : PlacedBlock) : PlacedBlock :=
  let r := pb.rotation_xy + 1
  { pb with rotation_xy := if r = 4 then 0 else r }

/-- `PlacedBlock::rotated_dir_ccw_xy` from `src/machine/mod.rs`: rotate a
queried direction `rotation_xy` times counter-clockwise into the block's
local frame. -/
def PlacedBlock.rotated_dir_ccw_xy (pb : PlacedBlock) (dir : Dir3) : Dir3 :=
  Dir3.rotated_ccw_xy^[pb.rotation_xy] dir

/-- `PlacedBlock::has_wind_hole` from `src/machine/mod.rs`. -/
def PlacedBlock.has_wind_hole (pb : PlacedBlock) (dir : Dir3) : Bool :=
  pb.block.has_wind_hole (pb.rotated_dir_ccw_xy dir)

/-- `PlacedBlock::has_move_hole` from `src/machine/mod.rs`. -/
def PlacedBlock.has_move_hole (pb : PlacedBlock) (dir : Dir3) : Bool :=
  pb.block.has_move_hole (pb.rotated_dir_ccw_xy dir)

/-- `PlacedBlock::has_wind_hole_in` from `src/machine/mod.rs`. -/
def PlacedBlock.has_wind_hole_in (pb : PlacedBlock) (dir : Dir3) : Bool :=
  pb.block.has_wind_hole_in (pb.rotated_dir_ccw_xy dir)

/-- `PlacedBlock::has_wind_hole_out` from `src/machine/mod.rs`. -/
def PlacedBlock.has_wind_hole_out (pb : PlacedBlock) (dir : Dir3) : Bool :=
  pb.block.has_wind_hole_out (pb.rotated_dir_ccw_xy dir)

/-- Modelled from the spec: an integer 3-vector position (`Point3<isize>`). -/
structure Point3 where
  x : Int
  y : Int
  z : Int
deriving DecidableEq, Repr

/-- Modelled from the spec: grid sizes are integer 3-vectors as well
(`Vector3<isize>` in the source). -/
abbrev Vector3 := Point3

def Point3.mk3 (x y z : Int) : Point3 := ⟨x, y, z⟩

/-- Modelled from the spec (§4.1): `Grid3<T>` is a dense array over all
positions within a fixed size; represented here by its size together with the
cell contents as a function (out-of-bounds cells are never exposed: `get` is
bounds-checked). -/
structure Grid3 (α : Type) where
  size : Vector3
  cells : Point3 → α

/-- `Grid3::new(size)`: every cell holds the default value (`None` for the
index grid used by the machine). -/
def Grid3.new (α : Type) (size : Vector3) : Grid3 (Option α) :=
  ⟨size, fun _ => none⟩

/-- Modelled from the spec (§8): a position lies in `[0, size)` on every
axis. -/
def inBounds (size : Vector3) (p : Point3) : Bool :=
  decide (0 ≤ p.x ∧ p.x < size.x ∧ 0 ≤ p.y ∧ p.y < size.y ∧ 0 ≤ p.z ∧ p.z < size.z)

/-- `Grid3::is_valid_pos`: bounds check against the grid's own size. -/
def Grid3.is_valid_pos (g : Grid3 α) (p : Point3) : Bool :=
  inBounds g.size p

/-- Modelled from the spec (§4.1): bounds-checked lookup, `None` when the
position is out of range. -/
def Grid3.get (g : Grid3 α) (p : Point3) : Option α :=
  if g.is_valid_pos p then some (g.cells p) else none

/-- Modelled from the spec: `indices[pos] = v` assignment.  In the source an
out-of-bounds index write panics; here the write is total and every theorem
below restricts mutation to in-bounds positions, matching the states the
source can actually reach. -/
def Grid3.set (g : Grid3 α) (p : Point3) (v : α) : Grid3 α :=
  { g with cells := fun q => if q = p then v else g.cells q }

/-- Modelled from the spec (§2, §4.1): `VecOption`, a stable-index arena.
`add` appends a fresh slot, `remove` tombstones a slot in place; freed slots
are reclaimed only by the explicit compaction step (`gc`), which is outside
the claims considered here. -/
structure VecOption (α : Type) where
  slots : List (Option α)
deriving Repr

/-- `VecOption::new()`: the empty arena. -/
def VecOption.new (α : Type) : VecOption α := ⟨[]⟩

/-- Arena lookup: `None` for a tombstoned or out-of-range slot. -/
def VecOption.get (v : VecOption α) (i : Nat) : Option α :=
  v.slots[i]?.join

/-- `VecOption::add`: returns the assigned slot index and the new arena. -/
def VecOption.add (v : VecOption α) (x : α) : Nat × VecOption α :=
  (v.slots.length, ⟨v.slots ++ [some x]⟩)

/-- `VecOption::remove`: returns the removed value (if any) and tombstones
the slot. -/
def VecOption.remove (v : VecOption α) (i : Nat) : Option α × VecOption α :=
  (v.get i, ⟨v.slots.set i none⟩)

/-- `VecOption::iter`: the `(index, value)` pairs of occupied slots, in slot
order. -/
def VecOption.iter (v : VecOption α) : List (Nat × α) :=
  v.slots.enum.filterMap (fun e => e.2.map (fun x => (e.1, x)))

/-- `BlockIndex` from `src/machine/mod.rs` (`usize`). -/
abbrev BlockIndex := Nat

/-- `Blocks` from `src/machine/mod.rs`: grid of slot indices plus the arena
of `(position, block)` pairs. -/
structure Blocks where
  indices : Grid3 (Option BlockIndex)
  data : VecOption (Point3 × PlacedBlock)

/-- Modelled from the spec (§6): a `Level` supplies the grid size and the
`input_dim()`/`output_dim()` counts (flattened from `level.spec` in the
source; the expected token sequences are not consulted by any claim). -/
structure Level where
  size : Vector3
  input_dim : Nat
  output_dim : Nat

/-- `Machine` from `src/machine/mod.rs`. -/
structure Machine where
  blocks : Blocks
  level : Option Level

/-- `Machine::size`. -/
def Machine.size (m : Machine) : Vector3 :=
  m.blocks.indices.size

/-- `Machine::is_valid_pos`. -/
def Machine.is_valid_pos (m : Machine) (p : Point3) : Bool :=
  m.blocks.indices.is_valid_pos p

/-- `Machine::get_block_at_pos` from `src/machine/mod.rs`.  The source
indexes `data[id]` directly (panicking on a free slot, which the Grid↔Arena
invariant rules out); here the lookup goes through `VecOption.get`. -/
def Machine.get_block_at_pos (m : Machine) (p : Point3) :
    Option (BlockIndex × PlacedBlock) :=
  match (m.blocks.indices.get p).join with
  | some id => (m.blocks.data.get id).map (fun e => (id, e.2))
  | none => none

/-- `Machine::remove_at_pos` from `src/machine/mod.rs`: clears the grid cell
and frees the arena slot; mutation modelled by returning the new machine
alongside the removed entry. -/
def Machine.remove_at_pos (m : Machine) (p : Point3) :
    Option (BlockIndex × PlacedBlock) × Machine :=
  match (m.blocks.indices.get p).join with
  | some id =>
      let rem := m.blocks.data.remove id
      (rem.1.map (fun e => (id, e.2)),
       { m with blocks := { indices := m.blocks.indices.set p none, data := rem.2 } })
  | none => (none, m)

/-- `Machine::set_block_at_pos` from `src/machine/mod.rs`: remove any prior
occupant, then insert if `Some`. -/
def Machine.set_block_at_pos (m : Machine) (p : Point3) (block : Option PlacedBlock) :
    Machine :=
  let m1 := (m.remove_at_pos p).2
  match block with
  | some b =>
      let a := m1.blocks.data.add (p, b)
      { m1 with blocks := { indices := m1.blocks.indices.set p (some a.1), data := a.2 } }
  | none => m1

/-- `Machine::new_sandbox`. -/
def Machine.new_sandbox (size : Vector3) : Machine :=
  ⟨⟨Grid3.new BlockIndex size, VecOption.new (Point3 × PlacedBlock)⟩, none⟩

/-- One iteration of the `Machine::new_from_block_data` loop:
`indices[pos] = Some(data.add((pos, block)))`. -/
def Blocks.load_step (acc : Blocks) (e : Point3 × PlacedBlock) : Blocks :=
  let a := acc.data.add e
  { indices := acc.indices.set e.1 (some a.1), data := a.2 }

/-- `Machine::new_from_block_data` from `src/machine/mod.rs`: bulk load, one
`indices[pos] = Some(data.add(..))` per entry. -/
def Machine.new_from_block_data (size : Vector3) (slice : List (Point3 × PlacedBlock))
    (level : Option Level) : Machine :=
  ⟨slice.foldl Blocks.load_step
      ⟨Grid3.new BlockIndex size, VecOption.new (Point3 × PlacedBlock)⟩,
   level⟩

/-- The Input block placed by `Machine::new_from_level` for a given index. -/
def inputPlacedBlock (index : Nat) : PlacedBlock :=
  ⟨0, Block.Input index [] none⟩

/-- The Output block placed by `Machine::new_from_level` for a given index. -/
def outputPlacedBlock (index : Nat) : PlacedBlock :=
  ⟨0, Block.Output index none⟩

/-- Position of the `index`-th Input block in `Machine::new_from_level`:
`(0, size.y/2 - input_dim/2 + index, 0)` with Rust's truncating division. -/
def Level.inputPos (l : Level) (index : Nat) : Point3 :=
  ⟨0, Int.tdiv l.size.y 2 - Int.tdiv (l.input_dim : Int) 2 + (index : Int), 0⟩

/-- Position of the `index`-th Output block in `Machine::new_from_level`:
`(size.x - 1, size.y/2 - output_dim/2 + index, 0)`. -/
def Level.outputPos (l : Level) (index : Nat) : Point3 :=
  ⟨l.size.x - 1, Int.tdiv l.size.y 2 - Int.tdiv (l.output_dim : Int) 2 + (index : Int), 0⟩

/-- `Machine::new_from_level` from `src/machine/mod.rs`: empty grid of the
level's size, then one `set_block_at_pos` per Input block and per Output
block, in index order. -/
def Machine.new_from_level (l : Level) : Machine :=
  let m0 : Machine := ⟨⟨Grid3.new BlockIndex l.size, VecOption.new (Point3 × PlacedBlock)⟩, some l⟩
  let m1 := (List.range l.input_dim).foldl
    (fun m index => m.set_block_at_pos (l.inputPos index) (some (inputPlacedBlock index))) m0
  (List.range l.output_dim).foldl
    (fun m index => m.set_block_at_pos (l.outputPos index) (some (outputPlacedBlock index))) m1

/-- `SavedMachine` from `src/machine/mod.rs`. -/
structure SavedMachine where
  size : Vector3
  block_data : List (Point3 × PlacedBlock)
  level : Option Level

/-- `SavedMachine::from_machine`: collect the live `(position, block)` pairs
in arena iteration (slot) order. -/
def SavedMachine.from_machine (m : Machine) : SavedMachine :=
  ⟨m.size, m.blocks.data.iter.map (fun e => e.2), m.level⟩

/-- `SavedMachine::into_machine`. -/
def SavedMachine.into_machine (s : SavedMachine) : Machine :=
  Machine.new_from_block_data s.size s.block_data s.level

/-- The Grid↔Arena bidirectional mapping of spec §3: every occupied arena
slot is pointed to by the grid cell of its recorded (in-bounds) position, and
every `Some(i)` grid cell points to an occupied slot recording that cell's
position. -/
def Blocks.Inv (b : Blocks) : Prop :=
  (∀ i pos pb, b.data.get i = some (pos, pb) →
      b.indices.is_valid_pos pos = true ∧ b.indices.cells pos = some i)
  ∧ (∀ p i, b.indices.cells p = some i →
      ∃ pb, b.data.get i = some (p, pb))

/-- The Grid↔Arena invariant, stated on a whole machine. -/
def Machine.Inv (m : Machine) : Prop :=
  m.blocks.Inv

/-- One mutation step of spec §8's reachability property: a
`set_block_at_pos` or `remove_at_pos` call on a valid position. -/
inductive Machine.Step : Machine → Machine → Prop where
  | set (m : Machine) (p : Point3) (b : Option PlacedBlock)
      (hv : m.is_valid_pos p = true) : Machine.Step m (m.set_block_at_pos p b)
  | remove (m : Machine) (p : Point3) (hv : m.is_valid_pos p = true) :
      Machine.Step m (m.remove_at_pos p).2

/-- The initial machines of claim C1: `new_sandbox`, `new_from_level`, and
`new_from_block_data` over distinct positions.  Placement positions are
required to be in bounds: an out-of-bounds placement panics in the source
(`indices[pos] = ..`), so no machine state arises from it. -/
inductive Machine.Initial : Machine → Prop where
  | sandbox (size : Vector3) : Machine.Initial (Machine.new_sandbox size)
  | from_level (lv : Level)
      (hin : ∀ i < lv.input_dim, inBounds lv.size (lv.inputPos i) = true)
      (hout : ∀ i < lv.output_dim, inBounds lv.size (lv.outputPos i) = true) :
      Machine.Initial (Machine.new_from_level lv)
  | from_block_data (size : Vector3) (slice : List (Point3 × PlacedBlock))
      (level : Option Level)
      (hvalid : ∀ e ∈ slice, inBounds size e.1 = true)
      (hdist : slice.Pairwise (fun a b => a.1 ≠ b.1)) :
      Machine.Initial (Machine.new_from_block_data size slice level)

/-- A machine state reachable from an initial machine by `set_block_at_pos`
and `remove_at_pos` calls on valid positions. -/
def Machine.Reachable (m : Machine) : Prop :=
  ∃ m0, Machine.Initial m0 ∧ Relation.ReflTransGen Machine.Step m0 m

/-- Counter-clockwise quarter turns have order 4 on directions. -/
theorem Dir3.rotated_ccw_xy_four (d : Dir3) : Dir3.rotated_ccw_xy^[4] d = d := by
  rcases d with ⟨a, s⟩
  rcases a <;> rcases s <;> rfl

/-- Four clockwise rotations leave `rotation_xy` congruent mod 4, hence the
local-frame direction of any query is unchanged. -/
theorem PlacedBlock.rotated_dir_ccw_xy_four (pb : PlacedBlock) (d : Dir3) :
    (pb.rotate_cw_xy.rotate_cw_xy.rotate_cw_xy.rotate_cw_xy).rotated_dir_ccw_xy d
      = pb.rotated_dir_ccw_xy d := by
  rcases pb with ⟨r, b⟩
  match r with
  | 0 => rfl
  | 1 => rfl
  | 2 => rfl
  | 3 => rfl
  | n + 4 =>
      show Dir3.rotated_ccw_xy^[_] d = Dir3.rotated_ccw_xy^[n + 4] d
      have h1 : (PlacedBlock.mk (n + 4) b).rotate_cw_xy.rotate_cw_xy.rotate_cw_xy.rotate_cw_xy
          = PlacedBlock.mk (n + 8) b := by
        simp [PlacedBlock.rotate_cw_xy]
      rw [h1]
      show Dir3.rotated_ccw_xy^[n + 8] d = Dir3.rotated_ccw_xy^[n + 4] d
      have h2 : n + 8 = (n + 4) + 4 := by omega
      rw [h2, Function.iterate_add_apply]
      rw [Dir3.rotated_ccw_xy_four]

/-- C2: applying `rotate_cw_xy` four times leaves every port query
(`has_wind_hole`, `has_wind_hole_in`, `has_wind_hole_out`, `has_move_hole`)
identical to its pre-rotation value, for every placed block and every
direction. -/
theorem rotate_cw_xy_four_preserves_ports (pb : PlacedBlock) (d : Dir3) :
    (pb.rotate_cw_xy.rotate_cw_xy.rotate_cw_xy.rotate_cw_xy).has_wind_hole d
        = pb.has_wind_hole d
    ∧ (pb.rotate_cw_xy.rotate_cw_xy.rotate_cw_xy.rotate_cw_xy).has_wind_hole_in d
        = pb.has_wind_hole_in d
    ∧ (pb.rotate_cw_xy.rotate_cw_xy.rotate_cw_xy.rotate_cw_xy).has_wind_hole_out d
        = pb.has_wind_hole_out d
    ∧ (pb.rotate_cw_xy.rotate_cw_xy.rotate_cw_xy.rotate_cw_xy).has_move_hole d
        = pb.has_move_hole d := by
  have hdir := PlacedBlock.rotated_dir_ccw_xy_four pb d
  have hblock : (pb.rotate_cw_xy.rotate_cw_xy.rotate_cw_xy.rotate_cw_xy).block = pb.block := rfl
  refine ⟨?_, ?_, ?_, ?_⟩ <;>
    simp only [PlacedBlock.has_wind_hole, PlacedBlock.has_wind_hole_in,
      PlacedBlock.has_wind_hole_out, PlacedBlock.has_move_hole, hdir, hblock]

/-- C5: Funnel (in its local frame) admits wind in exactly through `Y_NEG`
and out exactly through `Y_POS`; every other direction is closed both ways. -/
theorem funnel_wind_holes (d : Dir3) :
    (Block.FunnelXY.has_wind_hole_in d = true ↔ d = Dir3.Y_NEG)
    ∧ (Block.FunnelXY.has_wind_hole_out d = true ↔ d = Dir3.Y_POS) := by
  rcases d with ⟨a, s⟩
  rcases a <;> rcases s <;> simp [Block.has_wind_hole_in, Block.has_wind_hole_out]

/-- C8: `BlipKind::next` is the 3-cycle A→B→C→A. -/
theorem blip_kind_next_cycle :
    (∀ k : BlipKind, k.next.next.next = k)
    ∧ BlipKind.A.next = BlipKind.B
    ∧ BlipKind.B.next = BlipKind.C
    ∧ BlipKind.C.next = BlipKind.A := by
  refine ⟨?_, rfl, rfl, rfl⟩
  intro k
  cases k <;> rfl

/-- C9: a `BlipDuplicator` (any kind filter, any activation record) has a
move hole in every one of the 6 directions: the source's
`dir != X_NEG || dir != X_POS` is identically true. -/
theorem blip_duplicator_move_hole_all
    (kind : Option BlipKind) (activated : Option BlipKind) (d : Dir3) :
    (Block.BlipDuplicator kind activated).has_move_hole d = true := by
  rcases d with ⟨a, s⟩
  rcases a <;> rcases s <;> rfl

theorem VecOption.get_new (α : Type) (i : Nat) : (VecOption.new α).get i = none := by
  simp [VecOption.new, VecOption.get]

theorem VecOption.add_fst (v : VecOption α) (x : α) :
    (v.add x).1 = v.slots.length := rfl

theorem VecOption.slots_add (v : VecOption α) (x : α) :
    (v.add x).2.slots = v.slots ++ [some x] := rfl

theorem VecOption.get_add_self (v : VecOption α) (x : α) :
    (v.add x).2.get v.slots.length = some x := by
  simp [VecOption.add, VecOption.get, List.getElem?_concat_length]

theorem VecOption.get_add_ne (v : VecOption α) (x : α) {i : Nat}
    (h : i ≠ v.slots.length) : (v.add x).2.get i = v.get i := by
  rcases Nat.lt_or_ge i v.slots.length with hlt | hge
  · simp [VecOption.add, VecOption.get, List.getElem?_append_left hlt]
  · have hgt : v.slots.length < i := Nat.lt_of_le_of_ne hge (fun he => h he.symm)
    have h1 : (v.slots ++ [some x])[i]? = none := by
      refine List.getElem?_eq_none ?_
      simp only [List.length_append, List.length_singleton]
      omega
    have h2 : v.slots[i]? = none := List.getElem?_eq_none (Nat.le_of_lt hgt)
    simp [VecOption.add, VecOption.get, h1, h2]

theorem VecOption.lt_length_of_get {v : VecOption α} {i : Nat} {x : α}
    (h : v.get i = some x) : i < v.slots.length := by
  by_contra hge
  have : v.slots[i]? = none := List.getElem?_eq_none (Nat.le_of_not_lt hge)
  simp [VecOption.get, this] at h

theorem VecOption.slots_remove (v : VecOption α) (i : Nat) :
    (v.remove i).2.slots = v.slots.set i none := rfl

theorem VecOption.get_remove_self (v : VecOption α) (i : Nat) :
    (v.remove i).2.get i = none := by
  rcases Nat.lt_or_ge i v.slots.length with hlt | hge
  · simp [VecOption.remove, VecOption.get, List.getElem?_set_self (by simpa using hlt)]
  · have : (v.slots.set i none)[i]? = none := by
      refine List.getElem?_eq_none ?_
      simpa using hge
    simp [VecOption.remove, VecOption.get, this]

theorem VecOption.get_remove_ne (v : VecOption α) {i j : Nat} (h : j ≠ i) :
    (v.remove i).2.get j = v.get j := by
  simp [VecOption.remove, VecOption.get, List.getElem?_set_ne (fun he => h he.symm)]

theorem Grid3.size_set (g : Grid3 α) (p : Point3) (v : α) :
    (g.set p v).size = g.size := rfl

theorem Grid3.is_valid_pos_set (g : Grid3 α) (p : Point3) (v : α) (q : Point3) :
    (g.set p v).is_valid_pos q = g.is_valid_pos q := rfl

theorem Grid3.cells_set_self (g : Grid3 α) (p : Point3) (v : α) :
    (g.set p v).cells p = v := by
  simp [Grid3.set]

theorem Grid3.cells_set_ne (g : Grid3 α) (p : Point3) (v : α) {q : Point3}
    (h : q ≠ p) : (g.set p v).cells q = g.cells q := by
  simp [Grid3.set, h]

theorem Grid3.get_of_valid {g : Grid3 α} {p : Point3}
    (h : g.is_valid_pos p = true) : g.get p = some (g.cells p) := by
  simp [Grid3.get, h]

theorem Grid3.get_of_invalid {g : Grid3 α} {p : Point3}
    (h : g.is_valid_pos p = false) : g.get p = none := by
  simp [Grid3.get, h]

theorem Grid3.join_get_eq_some {β : Type} {g : Grid3 (Option β)} {p : Point3} {v : β}
    (h : (g.get p).join = some v) :
    g.is_valid_pos p = true ∧ g.cells p = some v := by
  by_cases hv : g.is_valid_pos p = true
  · refine ⟨hv, ?_⟩
    rw [Grid3.get_of_valid hv] at h
    simpa using h
  · rw [Grid3.get_of_invalid (by simpa using hv)] at h
    simp at h

theorem Grid3.join_get_of_valid {β : Type} {g : Grid3 (Option β)} {p : Point3}
    (h : g.is_valid_pos p = true) : (g.get p).join = g.cells p := by
  rw [Grid3.get_of_valid h]
  simp [Option.join]

theorem Machine.is_valid_pos_remove_at_pos (m : Machine) (p q : Point3) :
    (m.remove_at_pos p).2.is_valid_pos q = m.is_valid_pos q := by
  unfold Machine.remove_at_pos
  cases hj : (m.blocks.indices.get p).join <;>
    simp [Machine.is_valid_pos, Grid3.is_valid_pos_set]

theorem Machine.cells_remove_at_pos_self (m : Machine) (p : Point3)
    (hv : m.is_valid_pos p = true) :
    (m.remove_at_pos p).2.blocks.indices.cells p = none := by
  have hjoin := Grid3.join_get_of_valid (g := m.blocks.indices) (p := p) hv
  unfold Machine.remove_at_pos
  cases hj : (m.blocks.indices.get p).join with
  | none =>
      simpa using hjoin.symm.trans hj
  | some id =>
      simp [Grid3.cells_set_self]

theorem Machine.cells_remove_at_pos_ne (m : Machine) (p : Point3) {q : Point3}
    (h : q ≠ p) :
    (m.remove_at_pos p).2.blocks.indices.cells q = m.blocks.indices.cells q := by
  unfold Machine.remove_at_pos
  cases hj : (m.blocks.indices.get p).join <;>
    simp [Grid3.cells_set_ne _ _ _ h]

theorem Machine.inv_remove_at_pos (m : Machine) (p : Point3) (h : m.Inv) :
    (m.remove_at_pos p).2.Inv := by
  obtain ⟨h1, h2⟩ := h
  unfold Machine.Inv Blocks.Inv Machine.remove_at_pos
  cases hj : (m.blocks.indices.get p).join with
  | none => exact ⟨h1, h2⟩
  | some id =>
    obtain ⟨hvp, hcp⟩ := Grid3.join_get_eq_some hj
    constructor
    · intro i pos pb hget
      have hne : i ≠ id := by
        intro he
        subst he
        rw [VecOption.get_remove_self] at hget
        exact Option.noConfusion hget
      rw [VecOption.get_remove_ne _ hne] at hget
      obtain ⟨hval, hcell⟩ := h1 i pos pb hget
      have hpos : pos ≠ p := by
        intro he
        subst he
        rw [hcp] at hcell
        exact hne (Option.some.inj hcell).symm
      refine ⟨?_, ?_⟩
      · rw [Grid3.is_valid_pos_set]
        exact hval
      · rw [Grid3.cells_set_ne _ _ _ hpos]
        exact hcell
    · intro q i hcell
      have hq : q ≠ p := by
        intro he
        subst he
        rw [Grid3.cells_set_self] at hcell
        exact Option.noConfusion hcell
      rw [Grid3.cells_set_ne _ _ _ hq] at hcell
      obtain ⟨pb, hget⟩ := h2 q i hcell
      have hne : i ≠ id := by
        intro he
        obtain ⟨pb', hget'⟩ := h2 p id hcp
        rw [← he, hget] at hget'
        exact hq (congrArg Prod.fst (Option.some.inj hget'))
      exact ⟨pb, by rw [VecOption.get_remove_ne _ hne]; exact hget⟩

theorem Machine.inv_set_block_at_pos (m : Machine) (p : Point3)
    (b : Option PlacedBlock) (hv : m.is_valid_pos p = true) (h : m.Inv) :
    (m.set_block_at_pos p b).Inv := by
  have hrm := Machine.inv_remove_at_pos m p h
  cases b with
  | none => exact hrm
  | some blk =>
    obtain ⟨g1, g2⟩ := hrm
    have hcp1 : (m.remove_at_pos p).2.blocks.indices.cells p = none :=
      Machine.cells_remove_at_pos_self m p hv
    have hvp1 : (m.remove_at_pos p).2.is_valid_pos p = true := by
      rw [Machine.is_valid_pos_remove_at_pos]
      exact hv
    unfold Machine.set_block_at_pos
    simp only []
    constructor
    · intro i pos pb hget
      by_cases hi : i = (m.remove_at_pos p).2.blocks.data.slots.length
      · subst hi
        rw [VecOption.get_add_self] at hget
        obtain ⟨hpos, hpb⟩ := Prod.mk.injEq .. ▸ Option.some.inj hget
        subst hpos
        refine ⟨?_, ?_⟩
        · rw [Grid3.is_valid_pos_set]
          exact hvp1
        · rw [Grid3.cells_set_self]
          rfl
      · rw [VecOption.get_add_ne _ _ hi] at hget
        obtain ⟨hval, hcell⟩ := g1 i pos pb hget
        have hpos : pos ≠ p := by
          intro he
          subst he
          rw [hcp1] at hcell
          exact Option.noConfusion hcell
        refine ⟨?_, ?_⟩
        · rw [Grid3.is_valid_pos_set]
          exact hval
        · rw [Grid3.cells_set_ne _ _ _ hpos]
          exact hcell
    · intro q i hcell
      by_cases hq : q = p
      · subst hq
        rw [Grid3.cells_set_self] at hcell
        have hi : ((m.remove_at_pos q).2.blocks.data.add (q, blk)).1 = i :=
          Option.some.inj hcell
        rw [VecOption.add_fst] at hi
        subst hi
        exact ⟨blk, VecOption.get_add_self _ _⟩
      · rw [Grid3.cells_set_ne _ _ _ hq] at hcell
        obtain ⟨pb, hget⟩ := g2 q i hcell
        have hi : i ≠ (m.remove_at_pos p).2.blocks.data.slots.length :=
          Nat.ne_of_lt (VecOption.lt_length_of_get hget)
        exact ⟨pb, by rw [VecOption.get_add_ne _ _ hi]; exact hget⟩

theorem Blocks.inv_empty (size : Vector3) :
    (Blocks.mk (Grid3.new BlockIndex size) (VecOption.new (Point3 × PlacedBlock))).Inv := by
  constructor
  · intro i pos pb hget
    rw [VecOption.get_new] at hget
    exact Option.noConfusion hget
  · intro q i hcell
    simp [Grid3.new] at hcell

theorem Machine.inv_new_sandbox (size : Vector3) : (Machine.new_sandbox size).Inv :=
  Blocks.inv_empty size

theorem Machine.is_valid_pos_set_block_at_pos (m : Machine) (p : Point3)
    (b : Option PlacedBlock) (q : Point3) :
    (m.set_block_at_pos p b).is_valid_pos q = m.is_valid_pos q := by
  cases b with
  | none => exact Machine.is_valid_pos_remove_at_pos m p q
  | some blk =>
    unfold Machine.set_block_at_pos
    simp only []
    rw [show (Machine.mk
        (Blocks.mk ((m.remove_at_pos p).2.blocks.indices.set p
            (some ((m.remove_at_pos p).2.blocks.data.add (p, blk)).1))
          ((m.remove_at_pos p).2.blocks.data.add (p, blk)).2)
        (m.remove_at_pos p).2.level).is_valid_pos q
      = (m.remove_at_pos p).2.is_valid_pos q from rfl]
    exact Machine.is_valid_pos_remove_at_pos m p q

theorem Machine.is_valid_pos_foldl_set {β : Type} (l : List β) (f : β → Point3)
    (g : β → Option PlacedBlock) (m : Machine) (q : Point3) :
    (l.foldl (fun acc e => acc.set_block_at_pos (f e) (g e)) m).is_valid_pos q
      = m.is_valid_pos q := by
  induction l generalizing m with
  | nil => rfl
  | cons a l ih =>
    rw [List.foldl_cons, ih, Machine.is_valid_pos_set_block_at_pos]

theorem Machine.inv_foldl_set {β : Type} (l : List β) (f : β → Point3)
    (g : β → Option PlacedBlock) (m : Machine)
    (hv : ∀ e ∈ l, m.is_valid_pos (f e) = true) (h : m.Inv) :
    (l.foldl (fun acc e => acc.set_block_at_pos (f e) (g e)) m).Inv := by
  induction l generalizing m with
  | nil => exact h
  | cons a l ih =>
    rw [List.foldl_cons]
    refine ih _ ?_ (Machine.inv_set_block_at_pos m (f a) (g a) (hv a (by simp)) h)
    intro e he
    rw [Machine.is_valid_pos_set_block_at_pos]
    exact hv e (List.mem_cons_of_mem a he)

theorem Machine.inv_new_from_level (lv : Level)
    (hin : ∀ i < lv.input_dim, inBounds lv.size (lv.inputPos i) = true)
    (hout : ∀ i < lv.output_dim, inBounds lv.size (lv.outputPos i) = true) :
    (Machine.new_from_level lv).Inv := by
  unfold Machine.new_from_level
  simp only []
  refine Machine.inv_foldl_set (List.range lv.output_dim) lv.outputPos
    (fun j => some (outputPlacedBlock j)) _ ?_ ?_
  · intro e he
    rw [Machine.is_valid_pos_foldl_set]
    exact hout e (List.mem_range.mp he)
  · refine Machine.inv_foldl_set (List.range lv.input_dim) lv.inputPos
      (fun i => some (inputPlacedBlock i)) _ ?_ ?_
    · intro e he
      exact hin e (List.mem_range.mp he)
    · exact Blocks.inv_empty lv.size

theorem Blocks.inv_load_step (acc : Blocks) (a : Point3 × PlacedBlock)
    (hva : acc.indices.is_valid_pos a.1 = true)
    (hfa : acc.indices.cells a.1 = none) (h : acc.Inv) :
    (Blocks.load_step acc a).Inv := by
  obtain ⟨h1, h2⟩ := h
  unfold Blocks.load_step
  simp only []
  constructor
  · intro i pos pb hget
    by_cases hi : i = acc.data.slots.length
    · subst hi
      rw [VecOption.get_add_self] at hget
      have he : a = (pos, pb) := Option.some.inj hget
      subst he
      refine ⟨?_, ?_⟩
      · show (acc.indices.set pos (some acc.data.slots.length)).is_valid_pos pos = true
        rw [Grid3.is_valid_pos_set]
        exact hva
      · show (acc.indices.set pos (some acc.data.slots.length)).cells pos
            = some acc.data.slots.length
        rw [Grid3.cells_set_self]
    · rw [VecOption.get_add_ne _ _ hi] at hget
      obtain ⟨hval, hcell⟩ := h1 i pos pb hget
      have hpos : pos ≠ a.1 := by
        intro hp
        rw [hp, hfa] at hcell
        exact Option.noConfusion hcell
      refine ⟨?_, ?_⟩
      · rw [Grid3.is_valid_pos_set]
        exact hval
      · rw [Grid3.cells_set_ne _ _ _ hpos]
        exact hcell
  · intro q i hcell
    by_cases hq : q = a.1
    · subst hq
      rw [Grid3.cells_set_self] at hcell
      have hi : (acc.data.add a).1 = i := Option.some.inj hcell
      rw [VecOption.add_fst] at hi
      subst hi
      exact ⟨a.2, VecOption.get_add_self _ _⟩
    · rw [Grid3.cells_set_ne _ _ _ hq] at hcell
      obtain ⟨pb, hget⟩ := h2 q i hcell
      have hi : i ≠ acc.data.slots.length :=
        Nat.ne_of_lt (VecOption.lt_length_of_get hget)
      exact ⟨pb, by rw [VecOption.get_add_ne _ _ hi]; exact hget⟩

theorem Blocks.inv_foldl_load (slice : List (Point3 × PlacedBlock)) (acc : Blocks)
    (hvalid : ∀ e ∈ slice, acc.indices.is_valid_pos e.1 = true)
    (hfresh : ∀ e ∈ slice, acc.indices.cells e.1 = none)
    (hdist : slice.Pairwise (fun a b => a.1 ≠ b.1))
    (h : acc.Inv) :
    (slice.foldl Blocks.load_step acc).Inv := by
  induction slice generalizing acc with
  | nil => exact h
  | cons a l ih =>
    rw [List.foldl_cons]
    have hpair := List.pairwise_cons.mp hdist
    refine ih _ ?_ ?_ hpair.2
      (Blocks.inv_load_step acc a (hvalid a (by simp)) (hfresh a (by simp)) h)
    · intro e he
      rw [show (Blocks.load_step acc a).indices.is_valid_pos e.1
          = acc.indices.is_valid_pos e.1 from rfl]
      exact hvalid e (List.mem_cons_of_mem a he)
    · intro e he
      have hne : e.1 ≠ a.1 := fun hc => hpair.1 e he hc.symm
      rw [show (Blocks.load_step acc a).indices.cells e.1
          = (acc.indices.set a.1 (some acc.data.slots.length)).cells e.1 from rfl]
      rw [Grid3.cells_set_ne _ _ _ hne]
      exact hfresh e (List.mem_cons_of_mem a he)

theorem Machine.inv_new_from_block_data (size : Vector3)
    (slice : List (Point3 × PlacedBlock)) (level : Option Level)
    (hvalid : ∀ e ∈ slice, inBounds size e.1 = true)
    (hdist : slice.Pairwise (fun a b => a.1 ≠ b.1)) :
    (Machine.new_from_block_data size slice level).Inv :=
  Blocks.inv_foldl_load slice _ (fun e he => hvalid e he) (fun _ _ => rfl) hdist
    (Blocks.inv_empty size)

/-- C1: every machine state reachable from an initial machine (`new_sandbox`,
`new_from_level`, or `new_from_block_data` over distinct, in-bounds
positions) by `set_block_at_pos`/`remove_at_pos` calls on valid positions
satisfies the Grid↔Arena bidirectional mapping `Machine.Inv`. -/
theorem grid_arena_invariant_reachable (m : Machine) (h : m.Reachable) :
    m.Inv := by
  obtain ⟨m0, h0, hsteps⟩ := h
  induction hsteps with
  | refl =>
      cases h0 with
      | sandbox size => exact Machine.inv_new_sandbox size
      | from_level lv hin hout => exact Machine.inv_new_from_level lv hin hout
      | from_block_data size slice level hvalid hdist =>
          exact Machine.inv_new_from_block_data size slice level hvalid hdist
  | tail hs hstep ih =>
      cases hstep with
      | set p b hv => exact Machine.inv_set_block_at_pos _ p b hv ih
      | remove p hv => exact Machine.inv_remove_at_pos _ p ih

/-- Witness for C1: a concrete reachable machine (one block placed in a
2×2×2 sandbox) satisfies the invariant. -/
theorem grid_arena_invariant_reachable_witness :
    Machine.Inv
      ((Machine.new_sandbox ⟨2, 2, 2⟩).set_block_at_pos ⟨0, 0, 0⟩
        (some ⟨0, Block.Solid⟩)) :=
  grid_arena_invariant_reachable _
    ⟨Machine.new_sandbox ⟨2, 2, 2⟩, Machine.Initial.sandbox _,
     Relation.ReflTransGen.single
       (Machine.Step.set _ ⟨0, 0, 0⟩ (some ⟨0, Block.Solid⟩) (by decide))⟩

theorem Machine.remove_at_pos_no_op (m : Machine) (p : Point3)
    (hj : (m.blocks.indices.get p).join = none) : (m.remove_at_pos p).2 = m := by
  unfold Machine.remove_at_pos
  rw [hj]

theorem Machine.data_remove_at_pos (m : Machine) (p : Point3) (id : BlockIndex)
    (hj : (m.blocks.indices.get p).join = some id) :
    (m.remove_at_pos p).2.blocks.data = (m.blocks.data.remove id).2 := by
  unfold Machine.remove_at_pos
  rw [hj]

theorem Machine.data_set_block_at_pos_some (m : Machine) (p : Point3)
    (blk : PlacedBlock) :
    (m.set_block_at_pos p (some blk)).blocks.data
      = ((m.remove_at_pos p).2.blocks.data.add (p, blk)).2 := rfl

theorem Machine.data_set_block_at_pos_none (m : Machine) (p : Point3) :
    (m.set_block_at_pos p none).blocks.data
      = (m.remove_at_pos p).2.blocks.data := rfl

theorem Machine.cells_set_block_at_pos_some_self (m : Machine) (p : Point3)
    (blk : PlacedBlock) :
    (m.set_block_at_pos p (some blk)).blocks.indices.cells p
      = some (m.remove_at_pos p).2.blocks.data.slots.length := by
  show ((m.remove_at_pos p).2.blocks.indices.set p
      (some (m.remove_at_pos p).2.blocks.data.slots.length)).cells p = _
  rw [Grid3.cells_set_self]

theorem Machine.cells_set_block_at_pos_ne (m : Machine) (p : Point3)
    (b : Option PlacedBlock) {q : Point3} (h : q ≠ p) :
    (m.set_block_at_pos p b).blocks.indices.cells q = m.blocks.indices.cells q := by
  cases b with
  | none => exact Machine.cells_remove_at_pos_ne m p h
  | some blk =>
    show ((m.remove_at_pos p).2.blocks.indices.set p
        (some (m.remove_at_pos p).2.blocks.data.slots.length)).cells q = _
    rw [Grid3.cells_set_ne _ _ _ h]
    exact Machine.cells_remove_at_pos_ne m p h

/-- C7: querying `get_block_at_pos` at a position outside the grid bounds
returns `None` (and, being a pure read in this embedding, leaves the machine
untouched). -/
theorem get_block_at_pos_out_of_bounds (m : Machine) (p : Point3)
    (hv : m.is_valid_pos p = false) : m.get_block_at_pos p = none := by
  unfold Machine.get_block_at_pos
  have hg : m.blocks.indices.get p = none := Grid3.get_of_invalid hv
  rw [hg]
  rfl

/-- Witness for C7: `(5,0,0)` is outside a 1×1×1 sandbox and the query
returns `None`. -/
theorem get_block_at_pos_out_of_bounds_witness :
    (Machine.new_sandbox ⟨1, 1, 1⟩).is_valid_pos ⟨5, 0, 0⟩ = false
    ∧ (Machine.new_sandbox ⟨1, 1, 1⟩).get_block_at_pos ⟨5, 0, 0⟩ = none :=
  ⟨by decide, get_block_at_pos_out_of_bounds _ _ (by decide)⟩

/-- C3: on a valid position, `set_block_at_pos` removes the prior occupant
and inserts the new block: afterwards the position reads back the new block
when `b` is `Some`, reads `None` when `b` is `None`, and the prior
occupant's arena slot is freed. -/
theorem set_block_at_pos_updates (m : Machine) (p : Point3)
    (b : Option PlacedBlock) (hv : m.is_valid_pos p = true) :
    (∀ blk, b = some blk →
        ∃ id, (m.set_block_at_pos p b).get_block_at_pos p = some (id, blk))
    ∧ (b = none → (m.set_block_at_pos p b).get_block_at_pos p = none)
    ∧ (∀ i pb0, m.get_block_at_pos p = some (i, pb0) →
        (m.set_block_at_pos p b).blocks.data.get i = none) := by
  refine ⟨?_, ?_, ?_⟩
  · rintro blk rfl
    refine ⟨(m.remove_at_pos p).2.blocks.data.slots.length, ?_⟩
    have hv2 : (m.set_block_at_pos p (some blk)).blocks.indices.is_valid_pos p = true :=
      (Machine.is_valid_pos_set_block_at_pos m p (some blk) p).trans hv
    unfold Machine.get_block_at_pos
    rw [Grid3.join_get_of_valid hv2, Machine.cells_set_block_at_pos_some_self]
    show ((m.set_block_at_pos p (some blk)).blocks.data.get
        (m.remove_at_pos p).2.blocks.data.slots.length).map _ = _
    rw [Machine.data_set_block_at_pos_some, VecOption.get_add_self]
    rfl
  · rintro rfl
    have hv2 : (m.set_block_at_pos p none).blocks.indices.is_valid_pos p = true :=
      (Machine.is_valid_pos_set_block_at_pos m p none p).trans hv
    unfold Machine.get_block_at_pos
    rw [Grid3.join_get_of_valid hv2]
    rw [show (m.set_block_at_pos p none).blocks.indices.cells p
        = (m.remove_at_pos p).2.blocks.indices.cells p from rfl]
    rw [Machine.cells_remove_at_pos_self m p hv]
  · intro i pb0 hget
    unfold Machine.get_block_at_pos at hget
    cases hj : (m.blocks.indices.get p).join with
    | none =>
        rw [hj] at hget
        exact absurd hget (by simp)
    | some id =>
        rw [hj] at hget
        have hget' : (m.blocks.data.get id).map (fun e => (id, e.2)) = some (i, pb0) :=
          hget
        rcases ho : m.blocks.data.get id with _ | e
        · rw [ho] at hget'
          simp at hget'
        · rw [ho] at hget'
          have hid : id = i := by
            have hpair : id = i ∧ e.2 = pb0 := by simpa using hget'
            exact hpair.1
          subst hid
          have hlt : id < m.blocks.data.slots.length :=
            VecOption.lt_length_of_get ho
          cases b with
          | none =>
            rw [Machine.data_set_block_at_pos_none,
              Machine.data_remove_at_pos m p id hj]
            exact VecOption.get_remove_self _ _
          | some blk =>
            rw [Machine.data_set_block_at_pos_some,
              Machine.data_remove_at_pos m p id hj]
            have hne : id ≠ (m.blocks.data.remove id).2.slots.length := by
              rw [VecOption.slots_remove, List.length_set]
              exact Nat.ne_of_lt hlt
            rw [VecOption.get_add_ne _ _ hne]
            exact VecOption.get_remove_self _ _

/-- Witness for C3: replacing the occupant of `(0,0,0)` in a 1×1×1 sandbox. -/
theorem set_block_at_pos_updates_witness :
    (Machine.new_sandbox ⟨1, 1, 1⟩).is_valid_pos ⟨0, 0, 0⟩ = true
    ∧ ((∀ blk, some (PlacedBlock.mk 0 Block.Solid) = some blk →
          ∃ id, ((Machine.new_sandbox ⟨1, 1, 1⟩).set_block_at_pos ⟨0, 0, 0⟩
              (some ⟨0, Block.Solid⟩)).get_block_at_pos ⟨0, 0, 0⟩ = some (id, blk))
        ∧ (some (PlacedBlock.mk 0 Block.Solid) = none →
          ((Machine.new_sandbox ⟨1, 1, 1⟩).set_block_at_pos ⟨0, 0, 0⟩
              (some ⟨0, Block.Solid⟩)).get_block_at_pos ⟨0, 0, 0⟩ = none)
        ∧ (∀ i pb0,
          (Machine.new_sandbox ⟨1, 1, 1⟩).get_block_at_pos ⟨0, 0, 0⟩ = some (i, pb0) →
          ((Machine.new_sandbox ⟨1, 1, 1⟩).set_block_at_pos ⟨0, 0, 0⟩
              (some ⟨0, Block.Solid⟩)).blocks.data.get i = none)) :=
  ⟨by decide,
   set_block_at_pos_updates (Machine.new_sandbox ⟨1, 1, 1⟩) ⟨0, 0, 0⟩
     (some ⟨0, Block.Solid⟩) (by decide)⟩

/-- C10: writing at a valid position `p` does not disturb the block (or its
slot index) stored at any other valid position `q`; stated for machines
satisfying the Grid↔Arena invariant (which all machines the program builds
satisfy, by C1). -/
theorem set_block_at_pos_frame (m : Machine) (p q : Point3)
    (b : Option PlacedBlock) (hinv : m.Inv) (_hvp : m.is_valid_pos p = true)
    (hvq : m.is_valid_pos q = true) (hne : q ≠ p) :
    (m.set_block_at_pos p b).get_block_at_pos q = m.get_block_at_pos q := by
  obtain ⟨h1, h2⟩ := hinv
  have hvq2 : (m.set_block_at_pos p b).blocks.indices.is_valid_pos q = true :=
    (Machine.is_valid_pos_set_block_at_pos m p b q).trans hvq
  unfold Machine.get_block_at_pos
  rw [Grid3.join_get_of_valid hvq2, Grid3.join_get_of_valid hvq,
    Machine.cells_set_block_at_pos_ne m p b hne]
  cases hc : m.blocks.indices.cells q with
  | none => rfl
  | some j =>
    show ((m.set_block_at_pos p b).blocks.data.get j).map _
        = (m.blocks.data.get j).map _
    suffices hsame : (m.set_block_at_pos p b).blocks.data.get j
        = m.blocks.data.get j by rw [hsame]
    obtain ⟨pbq, hj⟩ := h2 q j hc
    have hjlt : j < m.blocks.data.slots.length := VecOption.lt_length_of_get hj
    cases hp : (m.blocks.indices.get p).join with
    | none =>
      have hnop := Machine.remove_at_pos_no_op m p hp
      cases b with
      | none => rw [Machine.data_set_block_at_pos_none, hnop]
      | some blk =>
        rw [Machine.data_set_block_at_pos_some, hnop]
        exact VecOption.get_add_ne _ _ (Nat.ne_of_lt hjlt)
    | some id =>
      obtain ⟨hvp', hcp⟩ := Grid3.join_get_eq_some hp
      have hjid : j ≠ id := by
        intro he
        obtain ⟨pbp, hjp⟩ := h2 p id hcp
        rw [← he, hj] at hjp
        exact hne (congrArg Prod.fst (Option.some.inj hjp))
      cases b with
      | none =>
        rw [Machine.data_set_block_at_pos_none,
          Machine.data_remove_at_pos m p id hp]
        exact VecOption.get_remove_ne _ hjid
      | some blk =>
        rw [Machine.data_set_block_at_pos_some,
          Machine.data_remove_at_pos m p id hp]
        have hne2 : j ≠ (m.blocks.data.remove id).2.slots.length := by
          rw [VecOption.slots_remove, List.length_set]
          exact Nat.ne_of_lt hjlt
        rw [VecOption.get_add_ne _ _ hne2]
        exact VecOption.get_remove_ne _ hjid

/-- Witness for C10: overwriting `(1,0,0)` leaves the block at `(0,0,0)`
untouched in a 2×1×1 machine. -/
theorem set_block_at_pos_frame_witness :
    (((Machine.new_sandbox ⟨2, 1, 1⟩).set_block_at_pos ⟨0, 0, 0⟩
        (some ⟨0, Block.Solid⟩)).set_block_at_pos ⟨1, 0, 0⟩
        (some ⟨0, Block.WindSource⟩)).get_block_at_pos ⟨0, 0, 0⟩
      = ((Machine.new_sandbox ⟨2, 1, 1⟩).set_block_at_pos ⟨0, 0, 0⟩
        (some ⟨0, Block.Solid⟩)).get_block_at_pos ⟨0, 0, 0⟩ :=
  set_block_at_pos_frame
    ((Machine.new_sandbox ⟨2, 1, 1⟩).set_block_at_pos ⟨0, 0, 0⟩
      (some ⟨0, Block.Solid⟩))
    ⟨1, 0, 0⟩ ⟨0, 0, 0⟩ (some ⟨0, Block.WindSource⟩)
    (Machine.inv_set_block_at_pos _ _ _ (by decide) (Machine.inv_new_sandbox _))
    (by decide) (by decide) (by decide)

theorem List.enumFrom_filterMap_snd {α : Type} (l : List (Option α)) (n : Nat) :
    (l.enumFrom n).filterMap (fun e => e.2) = l.filterMap id := by
  induction l generalizing n with
  | nil => rfl
  | cons a l ih =>
    rw [List.enumFrom_cons, List.filterMap_cons, List.filterMap_cons]
    cases a with
    | none => exact ih (n + 1)
    | some x =>
        rw [ih (n + 1)]
        rfl

theorem VecOption.iter_map_snd (v : VecOption α) :
    v.iter.map (fun e => e.2) = v.slots.filterMap id := by
  unfold VecOption.iter
  rw [List.map_filterMap]
  have : (fun e : Nat × Option α => (e.2.map (fun x => (e.1, x))).map (fun e => e.2))
      = fun e : Nat × Option α => e.2 := by
    funext e
    cases h : e.2 <;> simp [h]
  rw [this]
  exact List.enumFrom_filterMap_snd v.slots 0

theorem VecOption.exists_get_iff_mem (v : VecOption α) (x : α) :
    (∃ i, v.get i = some x) ↔ some x ∈ v.slots := by
  constructor
  · rintro ⟨i, hi⟩
    unfold VecOption.get at hi
    rw [Option.join_eq_some] at hi
    exact List.getElem?_mem hi
  · intro hx
    obtain ⟨i, hi⟩ := List.mem_iff_getElem?.mp hx
    exact ⟨i, by unfold VecOption.get; rw [hi]; rfl⟩

theorem VecOption.get_map_some {α : Type} (l : List α) (i : Nat) :
    (VecOption.mk (l.map some)).get i = l[i]? := by
  unfold VecOption.get
  rw [List.getElem?_map]
  cases h : l[i]? <;> simp

theorem Blocks.foldl_load_slots (slice : List (Point3 × PlacedBlock)) (acc : Blocks) :
    (slice.foldl Blocks.load_step acc).data.slots
      = acc.data.slots ++ slice.map some := by
  induction slice generalizing acc with
  | nil => simp
  | cons a l ih =>
    rw [List.foldl_cons, ih]
    show ((acc.data.slots ++ [some a]) ++ l.map some) = _
    simp

theorem Blocks.foldl_load_size (slice : List (Point3 × PlacedBlock)) (acc : Blocks) :
    (slice.foldl Blocks.load_step acc).indices.size = acc.indices.size := by
  induction slice generalizing acc with
  | nil => rfl
  | cons a l ih =>
      rw [List.foldl_cons, ih]
      rfl

theorem Blocks.pairwise_positions_of_inv (b : Blocks) (h : b.Inv) :
    (b.data.slots.filterMap id).Pairwise (fun e1 e2 => e1.1 ≠ e2.1) := by
  obtain ⟨h1, _⟩ := h
  have hp : b.data.slots.Pairwise
      (fun o1 o2 => ∀ e1 ∈ o1, ∀ e2 ∈ o2, e1.1 ≠ e2.1) := by
    rw [List.pairwise_iff_getElem]
    intro i j hi hj hij e1 he1 e2 he2 hee
    have hg1 : b.data.get i = some e1 := by
      unfold VecOption.get
      rw [List.getElem?_eq_getElem hi, Option.mem_def.mp he1]
      rfl
    have hg2 : b.data.get j = some e2 := by
      unfold VecOption.get
      rw [List.getElem?_eq_getElem hj, Option.mem_def.mp he2]
      rfl
    obtain ⟨_, hc1⟩ := h1 i e1.1 e1.2 hg1
    obtain ⟨_, hc2⟩ := h1 j e2.1 e2.2 hg2
    rw [hee, hc2] at hc1
    exact absurd (Option.some.inj hc1) (Nat.ne_of_lt hij).symm
  exact List.Pairwise.filterMap id (fun o1 o2 ho e1 he1 e2 he2 => ho e1 he1 e2 he2) hp

theorem Blocks.valid_positions_of_inv (b : Blocks) (h : b.Inv) :
    ∀ e ∈ b.data.slots.filterMap id, b.indices.is_valid_pos e.1 = true := by
  intro e he
  rw [List.mem_filterMap] at he
  obtain ⟨o, ho, hoe⟩ := he
  have hoo : o = some e := hoe
  subst hoo
  obtain ⟨i, hget⟩ := (VecOption.exists_get_iff_mem b.data e).mpr ho
  exact (h.1 i e.1 e.2 hget).1

/-- C4: for any machine satisfying the Grid↔Arena invariant, the round trip
`SavedMachine::from_machine` then `into_machine` preserves the size, the
level, and the exact set of `(position, block)` pairs, re-establishes the
invariant, and reassigns slot indices densely in the iteration order of the
saved `block_data`. -/
theorem saved_machine_round_trip (m : Machine) (h : m.Inv) :
    ((SavedMachine.from_machine m).into_machine).size = m.size
    ∧ ((SavedMachine.from_machine m).into_machine).level = m.level
    ∧ (∀ pos pb,
        (∃ i, ((SavedMachine.from_machine m).into_machine).blocks.data.get i
            = some (pos, pb))
        ↔ (∃ i, m.blocks.data.get i = some (pos, pb)))
    ∧ ((SavedMachine.from_machine m).into_machine).Inv
    ∧ ((SavedMachine.from_machine m).into_machine).blocks.data.slots
        = (SavedMachine.from_machine m).block_data.map some := by
  have hbd : (SavedMachine.from_machine m).block_data
      = m.blocks.data.slots.filterMap id := VecOption.iter_map_snd m.blocks.data
  have hslots : ((SavedMachine.from_machine m).into_machine).blocks.data.slots
      = (SavedMachine.from_machine m).block_data.map some := by
    show ((SavedMachine.from_machine m).block_data.foldl Blocks.load_step
        (Blocks.mk (Grid3.new BlockIndex m.size)
          (VecOption.new (Point3 × PlacedBlock)))).data.slots = _
    rw [Blocks.foldl_load_slots]
    rfl
  refine ⟨?_, rfl, ?_, ?_, hslots⟩
  · show ((SavedMachine.from_machine m).block_data.foldl Blocks.load_step
        (Blocks.mk (Grid3.new BlockIndex m.size)
          (VecOption.new (Point3 × PlacedBlock)))).indices.size = m.size
    rw [Blocks.foldl_load_size]
    rfl
  · intro pos pb
    have hleft : (∃ i, ((SavedMachine.from_machine m).into_machine).blocks.data.get i
        = some (pos, pb)) ↔ (pos, pb) ∈ (SavedMachine.from_machine m).block_data := by
      constructor
      · rintro ⟨i, hi⟩
        rw [show ((SavedMachine.from_machine m).into_machine).blocks.data
            = VecOption.mk ((SavedMachine.from_machine m).block_data.map some) from
            congrArg VecOption.mk hslots] at hi
        rw [VecOption.get_map_some] at hi
        exact List.getElem?_mem hi
      · intro hm
        obtain ⟨i, hi⟩ := List.mem_iff_getElem?.mp hm
        refine ⟨i, ?_⟩
        rw [show ((SavedMachine.from_machine m).into_machine).blocks.data
            = VecOption.mk ((SavedMachine.from_machine m).block_data.map some) from
            congrArg VecOption.mk hslots]
        rw [VecOption.get_map_some, hi]
    rw [hleft, hbd]
    have : (pos, pb) ∈ m.blocks.data.slots.filterMap id
        ↔ some (pos, pb) ∈ m.blocks.data.slots := by
      simp [List.mem_filterMap]
    rw [this]
    exact (VecOption.exists_get_iff_mem m.blocks.data (pos, pb)).symm
  · refine Machine.inv_new_from_block_data m.size
      (SavedMachine.from_machine m).block_data m.level ?_ ?_
    · intro e he
      rw [hbd] at he
      exact Blocks.valid_positions_of_inv m.blocks h e he
    · rw [hbd]
      exact Blocks.pairwise_positions_of_inv m.blocks h

/-- Witness for C4: round-tripping a one-block machine. -/
theorem saved_machine_round_trip_witness :
    ((SavedMachine.from_machine
        ((Machine.new_sandbox ⟨2, 1, 1⟩).set_block_at_pos ⟨0, 0, 0⟩
          (some ⟨0, Block.Solid⟩))).into_machine).blocks.data.slots
      = (SavedMachine.from_machine
          ((Machine.new_sandbox ⟨2, 1, 1⟩).set_block_at_pos ⟨0, 0, 0⟩
            (some ⟨0, Block.Solid⟩))).block_data.map some :=
  (saved_machine_round_trip
    ((Machine.new_sandbox ⟨2, 1, 1⟩).set_block_at_pos ⟨0, 0, 0⟩
      (some ⟨0, Block.Solid⟩))
    (Machine.inv_set_block_at_pos _ _ _ (by decide)
      (Machine.inv_new_sandbox _))).2.2.2.2

theorem Machine.slots_set_block_at_pos_fresh (m : Machine) (p : Point3)
    (blk : PlacedBlock) (hv : m.is_valid_pos p = true)
    (hfresh : m.blocks.indices.cells p = none) :
    (m.set_block_at_pos p (some blk)).blocks.data.slots
      = m.blocks.data.slots ++ [some (p, blk)] := by
  have hj : (m.blocks.indices.get p).join = none := by
    rw [Grid3.join_get_of_valid hv]
    exact hfresh
  rw [Machine.data_set_block_at_pos_some, Machine.remove_at_pos_no_op m p hj]
  rfl

theorem Machine.foldl_set_cells_untouched {β : Type} (l : List β) (f : β → Point3)
    (g : β → Option PlacedBlock) (m : Machine) (q : Point3)
    (hq : ∀ e ∈ l, q ≠ f e) :
    (l.foldl (fun acc e => acc.set_block_at_pos (f e) (g e)) m).blocks.indices.cells q
      = m.blocks.indices.cells q := by
  induction l generalizing m with
  | nil => rfl
  | cons a l ih =>
    rw [List.foldl_cons, ih _ (fun e he => hq e (List.mem_cons_of_mem a he))]
    exact Machine.cells_set_block_at_pos_ne m (f a) (g a) (hq a (by simp))

theorem Machine.foldl_set_slots {β : Type} (l : List β) (f : β → Point3)
    (g : β → PlacedBlock) (m : Machine)
    (hv : ∀ e ∈ l, m.is_valid_pos (f e) = true)
    (hfresh : ∀ e ∈ l, m.blocks.indices.cells (f e) = none)
    (hdist : l.Pairwise (fun a b => f a ≠ f b)) :
    (l.foldl (fun acc e => acc.set_block_at_pos (f e) (some (g e))) m).blocks.data.slots
      = m.blocks.data.slots ++ l.map (fun e => some (f e, g e)) := by
  induction l generalizing m with
  | nil => simp
  | cons a l ih =>
    have hpair := List.pairwise_cons.mp hdist
    rw [List.foldl_cons]
    rw [ih _ ?_ ?_ hpair.2]
    · rw [Machine.slots_set_block_at_pos_fresh m (f a) (g a) (hv a (by simp))
        (hfresh a (by simp))]
      simp
    · intro e he
      rw [Machine.is_valid_pos_set_block_at_pos]
      exact hv e (List.mem_cons_of_mem a he)
    · intro e he
      have hne : f e ≠ f a := fun hc => hpair.1 e he hc.symm
      rw [Machine.cells_set_block_at_pos_ne m (f a) (some (g a)) hne]
      exact hfresh e (List.mem_cons_of_mem a he)

/-- C6 counterexample: the claim fails as stated ("for every level").  For a
1×1×1 level with one input and one output, the two vertically centered
columns coincide (x-min face = x-max face), so the Output placement removes
the Input block: the resulting machine holds no Input block at all. -/
theorem new_from_level_counterexample :
    (Machine.new_from_level ⟨⟨1, 1, 1⟩, 1, 1⟩).blocks.data.slots
      = [none, some (⟨0, 0, 0⟩, outputPlacedBlock 0)]
    ∧ ¬ ∃ k pos, (Machine.new_from_level ⟨⟨1, 1, 1⟩, 1, 1⟩).blocks.data.get k
        = some (pos, inputPlacedBlock 0) := by
  refine ⟨by decide, ?_⟩
  rintro ⟨k, pos, hk⟩
  have hs : (Machine.new_from_level ⟨⟨1, 1, 1⟩, 1, 1⟩).blocks.data.slots
      = [none, some (⟨0, 0, 0⟩, outputPlacedBlock 0)] := by decide
  unfold VecOption.get at hk
  rw [hs] at hk
  rcases k with _ | _ | k <;>
    simp [inputPlacedBlock, outputPlacedBlock] at hk

/-- C6 (amended): for every level whose Input/Output placement positions are
in bounds (out-of-bounds placements panic in the source) and whose input
column is disjoint from its output column (which holds whenever
`size.x ≥ 2`, but fails e.g. at `size.x = 1`), `new_from_level` produces
exactly the `input_dim` Input blocks (indices `0..input_dim`, rotation 0) on
the x-min face column and the `output_dim` Output blocks (indices
`0..output_dim`, rotation 0) on the x-max face column, with slots assigned
in placement order. -/
theorem new_from_level_blocks (lv : Level)
    (hin : ∀ i < lv.input_dim, inBounds lv.size (lv.inputPos i) = true)
    (hout : ∀ j < lv.output_dim, inBounds lv.size (lv.outputPos j) = true)
    (hdisj : ∀ i < lv.input_dim, ∀ j < lv.output_dim, lv.inputPos i ≠ lv.outputPos j) :
    (Machine.new_from_level lv).blocks.data.slots
      = ((List.range lv.input_dim).map (fun i => (lv.inputPos i, inputPlacedBlock i))
          ++ (List.range lv.output_dim).map
              (fun j => (lv.outputPos j, outputPlacedBlock j))).map some
    ∧ ∀ pos pb,
        (∃ k, (Machine.new_from_level lv).blocks.data.get k = some (pos, pb))
        ↔ ((∃ i < lv.input_dim, pos = lv.inputPos i ∧ pb = inputPlacedBlock i)
           ∨ (∃ j < lv.output_dim, pos = lv.outputPos j ∧ pb = outputPlacedBlock j)) := by
  have hinj_in : (List.range lv.input_dim).Pairwise
      (fun a b => lv.inputPos a ≠ lv.inputPos b) := by
    refine (List.pairwise_lt_range lv.input_dim).imp ?_
    intro a b hab hc
    have hy := congrArg Point3.y hc
    simp only [Level.inputPos] at hy
    omega
  have hinj_out : (List.range lv.output_dim).Pairwise
      (fun a b => lv.outputPos a ≠ lv.outputPos b) := by
    refine (List.pairwise_lt_range lv.output_dim).imp ?_
    intro a b hab hc
    have hy := congrArg Point3.y hc
    simp only [Level.outputPos] at hy
    omega
  have hslots : (Machine.new_from_level lv).blocks.data.slots
      = ((List.range lv.input_dim).map (fun i => (lv.inputPos i, inputPlacedBlock i))
          ++ (List.range lv.output_dim).map
              (fun j => (lv.outputPos j, outputPlacedBlock j))).map some := by
    unfold Machine.new_from_level
    simp only []
    rw [Machine.foldl_set_slots (List.range lv.output_dim) lv.outputPos
      outputPlacedBlock _ ?_ ?_ hinj_out]
    · rw [Machine.foldl_set_slots (List.range lv.input_dim) lv.inputPos
        inputPlacedBlock _ ?_ ?_ hinj_in]
      · simp [VecOption.new, List.map_map, Function.comp_def]
      · intro e he
        exact hin e (List.mem_range.mp he)
      · intro e he
        rfl
    · intro e he
      rw [Machine.is_valid_pos_foldl_set]
      exact hout e (List.mem_range.mp he)
    · intro e he
      rw [Machine.foldl_set_cells_untouched]
      · rfl
      · intro i hi
        exact (hdisj i (List.mem_range.mp hi) e (List.mem_range.mp he)).symm
  refine ⟨hslots, ?_⟩
  intro pos pb
  have hdata : (Machine.new_from_level lv).blocks.data
      = VecOption.mk
        (((List.range lv.input_dim).map (fun i => (lv.inputPos i, inputPlacedBlock i))
          ++ (List.range lv.output_dim).map
              (fun j => (lv.outputPos j, outputPlacedBlock j))).map some) :=
    congrArg VecOption.mk hslots
  constructor
  · rintro ⟨k, hk⟩
    rw [hdata, VecOption.get_map_some] at hk
    have hm := List.getElem?_mem hk
    rcases List.mem_append.mp hm with hι | hο
    · obtain ⟨i, hir, hieq⟩ := List.mem_map.mp hι
      exact Or.inl ⟨i, List.mem_range.mp hir,
        (congrArg Prod.fst hieq).symm, (congrArg Prod.snd hieq).symm⟩
    · obtain ⟨j, hjr, hjeq⟩ := List.mem_map.mp hο
      exact Or.inr ⟨j, List.mem_range.mp hjr,
        (congrArg Prod.fst hjeq).symm, (congrArg Prod.snd hjeq).symm⟩
  · intro hm
    have hmem : (pos, pb)
        ∈ (List.range lv.input_dim).map (fun i => (lv.inputPos i, inputPlacedBlock i))
          ++ (List.range lv.output_dim).map
              (fun j => (lv.outputPos j, outputPlacedBlock j)) := by
      rcases hm with ⟨i, hi, hp, hb⟩ | ⟨j, hj, hp, hb⟩
      · exact List.mem_append.mpr (Or.inl (List.mem_map.mpr
          ⟨i, List.mem_range.mpr hi, by rw [hp, hb]⟩))
      · exact List.mem_append.mpr (Or.inr (List.mem_map.mpr
          ⟨j, List.mem_range.mpr hj, by rw [hp, hb]⟩))
    obtain ⟨k, hk⟩ := List.mem_iff_getElem?.mp hmem
    refine ⟨k, ?_⟩
    rw [hdata, VecOption.get_map_some, hk]

/-- Witness for C6 (amended): a 3×3×1 level with one input and one output. -/
theorem new_from_level_blocks_witness :
    (Machine.new_from_level ⟨⟨3, 3, 1⟩, 1, 1⟩).blocks.data.slots
      = ((List.range 1).map
            (fun i => (Level.inputPos ⟨⟨3, 3, 1⟩, 1, 1⟩ i, inputPlacedBlock i))
          ++ (List.range 1).map
            (fun j => (Level.outputPos ⟨⟨3, 3, 1⟩, 1, 1⟩ j, outputPlacedBlock j))).map some :=
  (new_from_level_blocks ⟨⟨3, 3, 1⟩, 1, 1⟩
    (by decide) (by decide) (by decide)).1

end UltimateScale
